import Mathlib

/-!
Shallow embedding of the nozomi controller (src/controller.py) and of the
executor send prelude (src/executor.py).

Conventions used throughout:
* Python strings are modelled as lists of code points (`Text := List Char`);
  `len`, slicing and `str.rfind` become the corresponding list operations,
  with the -1 sentinel of `rfind` rendered as `Option Nat`.
* Python `None` becomes `Option`; the truthiness of a string is nonemptiness,
  the truthiness of `None` is falsity.
* Exceptions become `Except`: a raised exception aborts the function while
  keeping the side effects already performed.
* Outbound REST calls are recorded in a trace (`List Call`); an awaited call
  is modelled as taking effect at the point of the call expression.
-/

abbrev Text := List Char

/-- Python `s.rfind(c, 0, k)` restricted to the already-sliced prefix:
index of the last occurrence of `c` in `l`, `none` when absent. -/
def rfind (l : Text) (c : Char) : Option Nat :=
  match l with
  | [] => none
  | a :: rest =>
    match rfind rest c with
    | some i => some (i + 1)
    | none => if a = c then some 0 else none

theorem rfind_spec (l : Text) (c : Char) (i : Nat) (h : rfind l c = some i) :
    i < l.length ∧ l.get? i = some c := by
  induction l generalizing i with
  | nil => simp [rfind] at h
  | cons a rest ih =>
    simp only [rfind] at h
    cases hr : rfind rest c with
    | some j =>
      rw [hr] at h
      cases h
      have := ih j hr
      constructor
      · simpa [List.length_cons] using Nat.succ_lt_succ this.1
      · simpa using this.2
    | none =>
      rw [hr] at h
      by_cases hac : a = c
      · simp [hac] at h
        cases h
        simp [hac]
      · simp [hac] at h

/-- Translation of `split_text` (controller.py lines 27-39): cut `s` at the
last newline strictly before `limit`, else the last space, else hard-cut at
`limit`; returns the head and the carried-over tail. -/
def split_text (s : Text) (limit : Nat) : Text × Text :=
  if s.length < limit then (s, [])
  else
    match rfind (s.take limit) '\n' with
    | some index => (s.take index, s.drop (index + 1))
    | none =>
      match rfind (s.take limit) ' ' with
      | some index => (s.take index, s.drop (index + 1))
      | none => (s.take limit, s.drop limit)

/-- The separator characters `split_text` may silently drop at a cut. -/
def isSep (sep : Text) : Prop :=
  sep = [] ∨ sep = ['\n'] ∨ sep = [' ']

theorem isSep_nil : isSep [] := Or.inl rfl

theorem cut_recon (s : Text) (i : Nat) (c : Char) (h : s.get? i = some c) :
    s = s.take i ++ [c] ++ s.drop (i + 1) := by
  have hi : i < s.length := by
    by_contra hle
    rw [List.get?_eq_none.2 (Nat.le_of_not_lt hle)] at h
    cases h
  have hc : s.get ⟨i, hi⟩ = c := by
    have := List.get?_eq_get hi
    rw [this] at h
    exact Option.some.inj h
  have hc2 : s[i] = c := by
    simpa [List.get_eq_getElem] using hc
  have hdrop : s.drop i = c :: s.drop (i + 1) := by
    rw [List.drop_eq_getElem_cons hi, hc2]
  calc s = s.take i ++ s.drop i := (List.take_append_drop i s).symm
    _ = s.take i ++ (c :: s.drop (i + 1)) := by rw [hdrop]
    _ = s.take i ++ [c] ++ s.drop (i + 1) := by simp

theorem split_text_fst_le (s : Text) (limit : Nat) :
    (split_text s limit).1.length ≤ limit := by
  unfold split_text
  by_cases hlen : s.length < limit
  · simp [hlen]
    omega
  · simp only [hlen, if_false]
    cases h1 : rfind (s.take limit) '\n' with
    | some i =>
      have := (rfind_spec _ _ _ h1).1
      simp only [List.length_take] at this
      simp only [List.length_take]
      have : i ≤ limit := by omega
      simpa [List.length_take] using le_trans (Nat.min_le_left i s.length) this
    | none =>
      cases h2 : rfind (s.take limit) ' ' with
      | some i =>
        have := (rfind_spec _ _ _ h2).1
        simp only [List.length_take] at this
        have : i ≤ limit := by omega
        simpa [List.length_take] using le_trans (Nat.min_le_left i s.length) this
      | none =>
        simpa [List.length_take] using Nat.min_le_left limit s.length

theorem split_text_recon (s : Text) (limit : Nat) :
    ∃ sep, isSep sep ∧ s = (split_text s limit).1 ++ sep ++ (split_text s limit).2 := by
  unfold split_text
  by_cases hlen : s.length < limit
  · exact ⟨[], isSep_nil, by simp [hlen]⟩
  · simp only [hlen, if_false]
    cases h1 : rfind (s.take limit) '\n' with
    | some i =>
      refine ⟨['\n'], Or.inr (Or.inl rfl), ?_⟩
      have hget : s.get? i = some '\n' := by
        have hsp := rfind_spec _ _ _ h1
        have hlt : i < limit := by
          have := hsp.1
          simp [List.length_take] at this
          omega
        have := hsp.2
        rwa [List.get?_take hlt] at this
      simpa using cut_recon s i '\n' hget
    | none =>
      cases h2 : rfind (s.take limit) ' ' with
      | some i =>
        refine ⟨[' '], Or.inr (Or.inr rfl), ?_⟩
        have hget : s.get? i = some ' ' := by
          have hsp := rfind_spec _ _ _ h2
          have hlt : i < limit := by
            have := hsp.1
            simp [List.length_take] at this
            omega
          have := hsp.2
          rwa [List.get?_take hlt] at this
        simpa using cut_recon s i ' ' hget
      | none =>
        exact ⟨[], isSep_nil, by simp⟩

theorem split_text_snd_lt (s : Text) (limit : Nat) (hs : s ≠ []) (hl : 0 < limit) :
    (split_text s limit).2.length < s.length := by
  have hpos : 0 < s.length := List.length_pos.2 hs
  unfold split_text
  by_cases hlen : s.length < limit
  · simpa [hlen] using hpos
  · simp only [hlen, if_false]
    cases h1 : rfind (s.take limit) '\n' with
    | some i =>
      simp only [List.length_drop]
      omega
    | none =>
      cases h2 : rfind (s.take limit) ' ' with
      | some i =>
        simp only [List.length_drop]
        omega
      | none =>
        simp only [List.length_drop]
        omega

/-- A named field of a rich document (hikari `EmbedField`). -/
structure EmbedField where
  name : Text
  value : Text
  is_inline : Bool
deriving DecidableEq, Repr

/-- A rich document (hikari `Embed`) as used by `paginate_embed`: an optional
title, an optional body text and an ordered field list. -/
structure Embed where
  title : Option Text
  description : Option Text
  fields : List EmbedField
deriving DecidableEq, Repr

/-- Length of the body text of an embed (`len` of the description, with the
falsy values `None` and the empty string both measuring zero). -/
def descLen (e : Embed) : Nat := (e.description.getD []).length

/-- Body text of a page with `None` flattened to the empty text. -/
def descOf (e : Embed) : Text := e.description.getD []

/-- The inner `while` loop of `paginate_embed` (controller.py lines 53-55):
while the page still has fields and either more than 15 of them or there is
carried-over body text, pop the last field onto the carry list. Returns the
fields kept on the page and the carry list. -/
def fieldLoop (carry : List EmbedField) (fs : List EmbedField) (desc : Text) :
    List EmbedField × List EmbedField :=
  if h : fs ≠ [] ∧ (15 < fs.length ∨ desc ≠ []) then
    fieldLoop (carry ++ [fs.getLast h.1]) fs.dropLast desc
  else (fs, carry)
termination_by fs.length
decreasing_by
  have : fs.length ≠ 0 := fun hz => h.1 (List.eq_nil_of_length_eq_zero hz)
  simp [List.length_dropLast]
  omega

/-- How many fields the inner loop keeps on the current page: none when body
text is carried over, at most 15 otherwise. -/
def keepCount (desc : Text) : Nat := if desc = [] then 15 else 0

theorem fieldLoop_eq_aux (n : Nat) :
    ∀ (carry fs : List EmbedField) (desc : Text), fs.length ≤ n →
    fieldLoop carry fs desc =
      (fs.take (keepCount desc), carry ++ (fs.drop (keepCount desc)).reverse) := by
  induction n with
  | zero =>
    intro carry fs desc hle
    have hfs : fs = [] := List.eq_nil_of_length_eq_zero (Nat.le_zero.1 hle)
    subst hfs
    rw [fieldLoop]
    simp
  | succ n ih =>
    intro carry fs desc hle
    rw [fieldLoop]
    by_cases hcond : fs ≠ [] ∧ (15 < fs.length ∨ desc ≠ [])
    · rw [dif_pos hcond]
      have hne : fs ≠ [] := hcond.1
      have hlast : fs.dropLast ++ [fs.getLast hne] = fs :=
        List.dropLast_append_getLast hne
      have hlen : fs.dropLast.length ≤ n := by
        have := List.length_dropLast fs
        have hpos : 0 < fs.length := List.length_pos.2 hne
        omega
      rw [ih (carry ++ [fs.getLast hne]) fs.dropLast desc hlen]
      by_cases hdesc : desc = []
      · -- body carry empty: the loop only ran because there were > 15 fields
        have h15 : 15 < fs.length := by
          rcases hcond.2 with h | h
          · exact h
          · exact absurd hdesc h
        have h15d : 15 ≤ fs.dropLast.length := by
          have := List.length_dropLast fs
          omega
        have htake : fs.dropLast.take 15 = fs.take 15 := by
          conv_rhs => rw [← hlast]
          rw [List.take_append_of_le_length h15d]
        have hdropf : fs.drop 15 = fs.dropLast.drop 15 ++ [fs.getLast hne] := by
          conv_lhs => rw [← hlast]
          rw [List.drop_append_of_le_length h15d]
        simp only [keepCount, hdesc, if_pos, if_true]
        rw [htake, hdropf]
        simp
      · -- body carry nonempty: every field moves to the carry list
        simp only [keepCount, if_neg hdesc, List.take_zero, List.drop_zero,
          Prod.mk.injEq, true_and]
        conv_rhs => rw [← hlast]
        simp
    · rw [dif_neg hcond]
      by_cases hnil : fs = []
      · subst hnil
        simp
      · -- the loop guard failed with a nonempty list: desc = [] and ≤ 15 fields
        have hdesc : desc = [] ∧ fs.length ≤ 15 := by
          by_contra hc
          apply hcond
          refine ⟨hnil, ?_⟩
          by_cases hd : desc = []
          · left
            by_contra hlt
            exact hc ⟨hd, Nat.le_of_not_lt hlt⟩
          · right
            exact hd
        rw [keepCount, if_pos hdesc.1]
        rw [List.take_of_length_le hdesc.2, List.drop_eq_nil_of_le hdesc.2]
        simp

theorem fieldLoop_eq (carry fs : List EmbedField) (desc : Text) :
    fieldLoop carry fs desc =
      (fs.take (keepCount desc), carry ++ (fs.drop (keepCount desc)).reverse) :=
  fieldLoop_eq_aux fs.length carry fs desc (Nat.le_refl _)

/-- One application of controller.py lines 51-52: split an overlong body,
keeping the head on the current page and carrying the tail over; falsy
descriptions (`None` or the empty string) are left untouched and carry
nothing. -/
def descStep (d : Option Text) : Option Text × Text :=
  match d with
  | none => (none, [])
  | some s =>
    if s = [] then (some s, [])
    else (some (split_text s 2048).1, (split_text s 2048).2)

theorem descStep_fst_le (d : Option Text) :
    ((descStep d).1.getD []).length ≤ 2048 := by
  match d with
  | none => simp [descStep]
  | some s =>
    by_cases hs : s = []
    · simp [descStep, hs]
    · simpa [descStep, hs] using split_text_fst_le s 2048

theorem descStep_recon (d : Option Text) :
    ∃ sep, isSep sep ∧
      d.getD [] = ((descStep d).1.getD []) ++ sep ++ (descStep d).2 := by
  match d with
  | none => exact ⟨[], isSep_nil, by simp [descStep]⟩
  | some s =>
    by_cases hs : s = []
    · exact ⟨[], isSep_nil, by simp [descStep, hs]⟩
    · obtain ⟨sep, hsep, hrecon⟩ := split_text_recon s 2048
      exact ⟨sep, hsep, by simpa [descStep, hs] using hrecon⟩

theorem descStep_snd_lt (d : Option Text) (h : (descStep d).2 ≠ []) :
    (descStep d).2.length < (d.getD []).length := by
  match d with
  | none => simp [descStep] at h
  | some s =>
    by_cases hs : s = []
    · simp [descStep, hs] at h
    · simpa [descStep, hs] using split_text_snd_lt s 2048 hs (by norm_num)

/-- The title suffix appended to continuation pages (controller.py line 60). -/
def pageSuffix (n : Nat) : Text := (" (" ++ Nat.repr n ++ ")").data

/-- Exceptions `paginate_embed` can raise: the `TypeError` from concatenating
a `None` base title with the page suffix (line 60), and the
`ValueError("Embed too large to paginate")` overflow check (lines 69-70),
which is the spec's `PaginationOverflowError`. -/
inductive PagError where
  | typeError
  | overflow
deriving DecidableEq, Repr

theorem pageStep_lt (e : Embed)
    (h : ¬((descStep e.description).2 = [] ∧
           (fieldLoop [] e.fields (descStep e.description).2).2 = [])) :
    (descStep e.description).2.length +
      (fieldLoop [] e.fields (descStep e.description).2).2.length <
      descLen e + e.fields.length := by
  rw [fieldLoop_eq] at h ⊢
  by_cases hrest : (descStep e.description).2 = []
  · have hk : keepCount ([] : Text) = 15 := rfl
    rw [hrest] at h ⊢
    rw [hk] at h ⊢
    have hgt : 15 < e.fields.length := by
      by_contra hle
      apply h
      refine ⟨rfl, ?_⟩
      simp [List.drop_eq_nil_of_le (Nat.le_of_not_lt hle)]
    simp only [List.length_nil, List.nil_append, List.length_reverse,
      List.length_drop, Nat.zero_add]
    omega
  · have hlt := descStep_snd_lt e.description hrest
    simp only [keepCount, if_neg hrest, List.drop_zero]
    simp only [List.nil_append, List.length_reverse]
    have : descLen e = (e.description.getD []).length := rfl
    omega

/-- The outer `while embed:` loop of `paginate_embed` (controller.py lines
50-68), started on the embed `e` with the captured base title and current
page number: split the body, move surplus fields to the carry, emit the
current page, and when body text or fields were carried over start a new
page titled with the base title and the next page number (raising the
`TypeError` when the base title is `None`). -/
def pageLoop (baseTitle : Option Text) (e : Embed) (page : Nat) :
    Except PagError (List Embed) :=
  if h : (descStep e.description).2 = [] ∧
      (fieldLoop [] e.fields (descStep e.description).2).2 = [] then
    .ok [Embed.mk e.title (descStep e.description).1
          (fieldLoop [] e.fields (descStep e.description).2).1]
  else
    match baseTitle with
    | none => .error PagError.typeError
    | some t =>
      match pageLoop baseTitle
          (Embed.mk (some (t ++ pageSuffix (page + 1)))
            (some (descStep e.description).2)
            (fieldLoop [] e.fields (descStep e.description).2).2)
          (page + 1) with
      | .ok rest =>
        .ok (Embed.mk e.title (descStep e.description).1
              (fieldLoop [] e.fields (descStep e.description).2).1 :: rest)
      | .error err => .error err
termination_by descLen e + e.fields.length
decreasing_by
  simpa [descLen] using pageStep_lt e h

/-- Translation of `paginate_embed` (controller.py lines 42-71): run the page
loop from page 1 with the embed's own title as base title, then fail with the
overflow `ValueError` when more than 10 pages were built. -/
def paginate_embed (e : Embed) : Except PagError (List Embed) :=
  match pageLoop e.title e 1 with
  | .error err => .error err
  | .ok embeds => if 10 < embeds.length then .error PagError.overflow else .ok embeds

/-- Reconstruction of a body text from the page bodies it was split into:
each page boundary (and possibly the very end) may silently drop one
separator character (a newline or a space) chosen by `split_text`. -/
inductive BodyRecon : Text → List Text → Prop where
  | last (b sep : Text) : isSep sep → BodyRecon (b ++ sep) [b]
  | cons (b sep rest : Text) (bs : List Text) :
      isSep sep → BodyRecon rest bs → BodyRecon (b ++ sep ++ rest) (b :: bs)

theorem pageLoop_ok_props_aux (n : Nat) :
    ∀ (bt : Option Text) (e : Embed) (page : Nat) (pages : List Embed),
    descLen e + e.fields.length ≤ n →
    pageLoop bt e page = .ok pages →
    (∀ p ∈ pages, descLen p ≤ 2048 ∧ p.fields.length ≤ 15) ∧
      ((pages.map Embed.fields).join).Perm e.fields ∧
      BodyRecon (descOf e) (pages.map descOf) := by
  induction n using Nat.strong_induction_on with
  | _ n ih =>
    intro bt e page pages hn hok
    rw [pageLoop.eq_def] at hok
    have hkeep : keepCount (descStep e.description).2 ≤ 15 := by
      unfold keepCount
      by_cases h : (descStep e.description).2 = [] <;> simp [h]
    have hcur_desc : descLen (Embed.mk e.title (descStep e.description).1
        (fieldLoop [] e.fields (descStep e.description).2).1) ≤ 2048 :=
      descStep_fst_le e.description
    have hcur_fields : (fieldLoop [] e.fields (descStep e.description).2).1.length ≤ 15 := by
      rw [fieldLoop_eq]
      simp only [List.length_take]
      exact le_trans (Nat.min_le_left _ _) hkeep
    obtain ⟨sep, hsep, hrecon⟩ := descStep_recon e.description
    by_cases hguard : (descStep e.description).2 = [] ∧
        (fieldLoop [] e.fields (descStep e.description).2).2 = []
    · rw [dif_pos hguard] at hok
      have hpages : pages = [Embed.mk e.title (descStep e.description).1
          (fieldLoop [] e.fields (descStep e.description).2).1] :=
        (Except.ok.inj hok).symm
      subst hpages
      refine ⟨?_, ?_, ?_⟩
      · intro p hp
        rw [List.mem_singleton] at hp
        subst hp
        exact ⟨hcur_desc, hcur_fields⟩
      · -- all fields stayed on the single page
        have hdrop : e.fields.drop (keepCount (descStep e.description).2) = [] := by
          have := hguard.2
          rw [fieldLoop_eq] at this
          simpa using this
        have htake : e.fields.take (keepCount (descStep e.description).2) = e.fields := by
          have := List.take_append_drop (keepCount (descStep e.description).2) e.fields
          rw [hdrop, List.append_nil] at this
          exact this
        simp only [List.map_cons, List.map_nil, List.join]
        rw [fieldLoop_eq]
        simpa [htake] using List.Perm.refl e.fields
      · -- the body of the single page is the original minus a dropped separator
        have : descOf e = ((descStep e.description).1.getD []) ++ sep := by
          rw [descOf, hrecon, hguard.1, List.append_nil]
        rw [this]
        exact BodyRecon.last _ sep hsep
    · rw [dif_neg hguard] at hok
      cases bt with
      | none =>
        simp only at hok
        cases hok
      | some t =>
        simp only at hok
        cases hrec : pageLoop (some t)
            (Embed.mk (some (t ++ pageSuffix (page + 1)))
              (some (descStep e.description).2)
              (fieldLoop [] e.fields (descStep e.description).2).2)
            (page + 1) with
        | error err =>
          rw [hrec] at hok
          simp only at hok
          cases hok
        | ok tail =>
          rw [hrec] at hok
          simp only [Except.ok.injEq] at hok
          have hpages : pages = Embed.mk e.title (descStep e.description).1
              (fieldLoop [] e.fields (descStep e.description).2).1 :: tail :=
            hok.symm
          subst hpages
          have hlt := pageStep_lt e hguard
          have hm : (descStep e.description).2.length +
              (fieldLoop [] e.fields (descStep e.description).2).2.length < n := by
            have : descLen e + e.fields.length ≤ n := hn
            omega
          have ihp := ih ((descStep e.description).2.length +
              (fieldLoop [] e.fields (descStep e.description).2).2.length)
            hm (some t)
            (Embed.mk (some (t ++ pageSuffix (page + 1)))
              (some (descStep e.description).2)
              (fieldLoop [] e.fields (descStep e.description).2).2)
            (page + 1) tail (by simp [descLen]) hrec
          refine ⟨?_, ?_, ?_⟩
          · intro p hp
            rw [List.mem_cons] at hp
            rcases hp with hp | hp
            · subst hp
              exact ⟨hcur_desc, hcur_fields⟩
            · exact ihp.1 p hp
          · -- kept fields plus (a permutation of) the carried fields
            simp only [List.map_cons, List.join]
            have htailperm := ihp.2.1
            simp only at htailperm
            have p2 : List.Perm
                ((fieldLoop [] e.fields (descStep e.description).2).1 ++
                  (tail.map Embed.fields).join)
                ((fieldLoop [] e.fields (descStep e.description).2).1 ++
                  (fieldLoop [] e.fields (descStep e.description).2).2) :=
              List.Perm.append_left _ htailperm
            have p3 : List.Perm
                ((fieldLoop [] e.fields (descStep e.description).2).1 ++
                  (fieldLoop [] e.fields (descStep e.description).2).2)
                e.fields := by
              rw [fieldLoop_eq]
              simp only [List.nil_append]
              have pr : List.Perm
                  (e.fields.take (keepCount (descStep e.description).2) ++
                    (e.fields.drop (keepCount (descStep e.description).2)).reverse)
                  (e.fields.take (keepCount (descStep e.description).2) ++
                    e.fields.drop (keepCount (descStep e.description).2)) :=
                List.Perm.append_left _ (List.reverse_perm _)
              rw [List.take_append_drop] at pr
              exact pr
            exact p2.trans p3
          · -- body reconstruction with one dropped separator per boundary
            have htailrecon := ihp.2.2
            simp only [descOf] at htailrecon ⊢
            simp only [Option.getD_some] at htailrecon
            rw [List.map_cons]
            have : e.description.getD [] = ((descStep e.description).1.getD []) ++ sep ++
                (descStep e.description).2 := hrecon
            rw [this]
            exact BodyRecon.cons _ sep _ _ hsep htailrecon

theorem pageLoop_ok_props (bt : Option Text) (e : Embed) (page : Nat)
    (pages : List Embed) (hok : pageLoop bt e page = .ok pages) :
    (∀ p ∈ pages, descLen p ≤ 2048 ∧ p.fields.length ≤ 15) ∧
      ((pages.map Embed.fields).join).Perm e.fields ∧
      BodyRecon (descOf e) (pages.map descOf) :=
  pageLoop_ok_props_aux (descLen e + e.fields.length) bt e page pages
    (Nat.le_refl _) hok

theorem paginate_ok_iff (e : Embed) (pages : List Embed) :
    paginate_embed e = .ok pages ↔
      pageLoop e.title e 1 = .ok pages ∧ pages.length ≤ 10 := by
  unfold paginate_embed
  cases hrec : pageLoop e.title e 1 with
  | error err => simp
  | ok l =>
    by_cases hlen : 10 < l.length
    · simp only [hlen, if_pos]
      constructor
      · intro h
        cases h
      · rintro ⟨hl, hle⟩
        cases hl
        omega
    · simp only [hlen, if_neg, if_false]
      constructor
      · intro h
        have := Except.ok.inj h
        subst this
        exact ⟨rfl, Nat.le_of_not_lt hlen⟩
      · rintro ⟨hl, _⟩
        rw [Except.ok.inj hl]

theorem pageLoop_ne_overflow_aux (n : Nat) :
    ∀ (bt : Option Text) (e : Embed) (page : Nat),
    descLen e + e.fields.length ≤ n →
    pageLoop bt e page ≠ .error PagError.overflow := by
  induction n using Nat.strong_induction_on with
  | _ n ih =>
    intro bt e page hn h
    rw [pageLoop.eq_def] at h
    by_cases hguard : (descStep e.description).2 = [] ∧
        (fieldLoop [] e.fields (descStep e.description).2).2 = []
    · rw [dif_pos hguard] at h
      cases h
    · rw [dif_neg hguard] at h
      cases bt with
      | none => simp at h
      | some t =>
        simp only at h
        cases hrec : pageLoop (some t)
            (Embed.mk (some (t ++ pageSuffix (page + 1)))
              (some (descStep e.description).2)
              (fieldLoop [] e.fields (descStep e.description).2).2)
            (page + 1) with
        | ok tail =>
          rw [hrec] at h
          simp at h
        | error err =>
          rw [hrec] at h
          simp only [Except.error.injEq] at h
          subst h
          have hlt := pageStep_lt e hguard
          have hm : (descStep e.description).2.length +
              (fieldLoop [] e.fields (descStep e.description).2).2.length < n := by
            omega
          exact ih _ hm (some t)
            (Embed.mk (some (t ++ pageSuffix (page + 1)))
              (some (descStep e.description).2)
              (fieldLoop [] e.fields (descStep e.description).2).2)
            (page + 1) (by simp [descLen]) hrec

theorem pageLoop_ne_overflow (bt : Option Text) (e : Embed) (page : Nat) :
    pageLoop bt e page ≠ .error PagError.overflow :=
  pageLoop_ne_overflow_aux (descLen e + e.fields.length) bt e page (Nat.le_refl _)

/-- Concrete field whose name is the decimal rendering of its index. -/
def exF (n : Nat) : EmbedField := EmbedField.mk (Nat.repr n).data [] false

/-- Small embed: short body, one field; paginates to itself. -/
def exE : Embed :=
  Embed.mk (some ['t']) (some ['h', 'i']) [EmbedField.mk ['a'] ['b'] false]

theorem exE_eval : paginate_embed exE = .ok [exE] := by
  simp [paginate_embed, pageLoop, descStep, split_text, fieldLoop_eq, keepCount,
    exE, rfind]

/-- 17-field embed with a title and no body: needs two pages. -/
def exBig : Embed := Embed.mk (some ['t']) none ((List.range 17).map exF)

/-- First page produced for `exBig`: the first 15 fields. -/
def exPage1 : Embed := Embed.mk (some ['t']) none ((List.range 15).map exF)

/-- Second page produced for `exBig`: the two carried fields, replayed in
reverse order. -/
def exPage2 : Embed :=
  Embed.mk (some ['t', ' ', '(', '2', ')']) (some []) [exF 16, exF 15]

theorem exBig_eval : paginate_embed exBig = .ok [exPage1, exPage2] := by
  simp [paginate_embed, pageLoop, descStep, fieldLoop_eq, keepCount, exBig, exF,
    exPage1, exPage2, pageSuffix]
  decide

/-- 17-field embed with `title = None` and no body. -/
def exBigNone : Embed := Embed.mk none none ((List.range 17).map exF)

theorem exBigNone_carry :
    (fieldLoop [] exBigNone.fields (descStep exBigNone.description).2).2 ≠ [] := by
  rw [fieldLoop_eq]
  decide

theorem exBigNone_eval : paginate_embed exBigNone = .error PagError.typeError := by
  simp [paginate_embed, pageLoop, descStep, fieldLoop_eq, keepCount, exBigNone,
    exF]

/-- C1 (corrected). The round-trip law as claimed is false: at each cut
`split_text` silently drops the separator character it cut at, and the
carry-over field list is built by popping fields off the tail, so each
carried block is replayed in reverse order. What does hold: the page bodies
reconstruct the original body up to one dropped newline-or-space separator
per page boundary (and possibly at the end), and the concatenated field
lists are a permutation of the original field sequence. -/
theorem paginate_roundtrip_amended (e : Embed) (pages : List Embed)
    (hok : paginate_embed e = .ok pages) :
    BodyRecon (descOf e) (pages.map descOf) ∧
      ((pages.map Embed.fields).join).Perm e.fields := by
  have h := (paginate_ok_iff e pages).1 hok
  have hp := pageLoop_ok_props e.title e 1 pages h.1
  exact ⟨hp.2.2, hp.2.1⟩

/-- C1 counterexample: a titled embed with 17 short fields and no body splits
into a 15-field page and a 2-field page whose fields come out in the order
16, 15 — concatenating the field lists does not reconstruct the original
order. -/
theorem paginate_roundtrip_counterexample :
    paginate_embed exBig = .ok [exPage1, exPage2] ∧
      ([exPage1, exPage2].map Embed.fields).join ≠ exBig.fields := by
  refine ⟨exBig_eval, ?_⟩
  decide

/-- C1 witness: the amended law evaluated on a small concrete embed. -/
theorem paginate_roundtrip_amended_witness :
    paginate_embed exE = .ok [exE] ∧
      (BodyRecon (descOf exE) ([exE].map descOf) ∧
        (([exE].map Embed.fields).join).Perm exE.fields) :=
  ⟨exE_eval, paginate_roundtrip_amended exE [exE] exE_eval⟩

/-- C2 (confirmed). Whenever `paginate_embed` succeeds, every returned page
has a body of at most 2048 characters and at most 15 fields, and at most 10
pages are returned. -/
theorem paginate_bounds (e : Embed) (pages : List Embed)
    (hok : paginate_embed e = .ok pages) :
    (∀ p ∈ pages, descLen p ≤ 2048 ∧ p.fields.length ≤ 15) ∧
      pages.length ≤ 10 := by
  have h := (paginate_ok_iff e pages).1 hok
  exact ⟨(pageLoop_ok_props e.title e 1 pages h.1).1, h.2⟩

/-- C2 witness: the bounds evaluated on a small concrete embed. -/
theorem paginate_bounds_witness :
    paginate_embed exE = .ok [exE] ∧
      ((∀ p ∈ [exE], descLen p ≤ 2048 ∧ p.fields.length ≤ 15) ∧
        ([exE] : List Embed).length ≤ 10) :=
  ⟨exE_eval, paginate_bounds exE [exE] exE_eval⟩

/-- C3 (confirmed). `paginate_embed` fails with the overflow error (the
`ValueError("Embed too large to paginate")`, the spec's
`PaginationOverflowError`) exactly when the greedy page loop would build
more than 10 pages; on failure nothing is returned, and on success the
result never exceeds 10 pages. -/
theorem paginate_overflow_iff (e : Embed) :
    (paginate_embed e = .error PagError.overflow ↔
      ∃ pages, pageLoop e.title e 1 = .ok pages ∧ 10 < pages.length) ∧
      (∀ pages, paginate_embed e = .ok pages → pages.length ≤ 10) := by
  constructor
  · unfold paginate_embed
    cases hrec : pageLoop e.title e 1 with
    | error err =>
      simp only [Except.error.injEq]
      constructor
      · intro h
        subst h
        exact absurd hrec (pageLoop_ne_overflow e.title e 1)
      · rintro ⟨pages, hpg, _⟩
        cases hpg
    | ok l =>
      by_cases hlen : 10 < l.length
      · simp only [hlen, if_pos]
        constructor
        · intro _
          exact ⟨l, rfl, hlen⟩
        · intro _
          trivial
      · simp only [hlen, if_neg, if_false]
        constructor
        · intro h
          cases h
        · rintro ⟨pages, hpg, hgt⟩
          rw [← Except.ok.inj hpg] at hgt
          exact absurd hgt hlen
  · intro pages hok
    exact ((paginate_ok_iff e pages).1 hok).2
/-- C3 witness: the success bound evaluated on a small concrete embed. -/
theorem paginate_overflow_iff_witness :
    paginate_embed exE = .ok [exE] ∧ ([exE] : List Embed).length ≤ 10 :=
  ⟨exE_eval, (paginate_overflow_iff exE).2 [exE] exE_eval⟩

/-- C10 (confirmed). When the embed's title is `None` and the first page
leaves either carried-over body text or carried-over fields, building the
second page's title concatenates `None` with the page suffix and
`paginate_embed` raises the `TypeError`. -/
theorem paginate_none_title_type_error (e : Embed) (ht : e.title = none)
    (hcarry : (descStep e.description).2 ≠ [] ∨
      (fieldLoop [] e.fields (descStep e.description).2).2 ≠ []) :
    paginate_embed e = .error PagError.typeError := by
  have hguard : ¬((descStep e.description).2 = [] ∧
      (fieldLoop [] e.fields (descStep e.description).2).2 = []) := by
    rcases hcarry with h | h
    · exact fun hc => h hc.1
    · exact fun hc => h hc.2
  have hpl : pageLoop e.title e 1 = .error PagError.typeError := by
    rw [pageLoop.eq_def, dif_neg hguard, ht]
  unfold paginate_embed
  rw [hpl]

/-- C10 witness: a 17-field embed with no title fails with the `TypeError`. -/
theorem paginate_none_title_type_error_witness :
    exBigNone.title = none ∧
      paginate_embed exBigNone = .error PagError.typeError :=
  ⟨rfl, paginate_none_title_type_error exBigNone rfl (Or.inr exBigNone_carry)⟩

/-- Message flags attached to an outbound call (`hikari.MessageFlag.EPHEMERAL`
or `hikari.UNDEFINED`). -/
inductive Flags where
  | undef
  | ephemeral
deriving DecidableEq, Repr

/-- Response type passed for the single initial interaction response.
`messageUpdateTuple` records the accidental 1-tuple `(MESSAGE_UPDATE,)`
built on controller.py line 172 for component interactions. -/
inductive RType where
  | messageCreate
  | messageUpdateTuple
deriving DecidableEq, Repr

/-- Response type used by `defer` (controller.py lines 142-148). -/
inductive DType where
  | deferredCreate
  | deferredUpdate
deriving DecidableEq, Repr

/-- Values an Action can return and the dispatcher can send. -/
inductive Response where
  | none_
  | text (s : Text)
  | embed (e : Embed)
  | embeds (l : List Embed)
deriving DecidableEq, Repr

/-- Python truthiness of a response value: `None` and empty strings or lists
are falsy, embeds are truthy. -/
def Response.truthy : Response → Bool
  | .none_ => false
  | .text s => decide (s ≠ [])
  | .embed _ => true
  | .embeds l => decide (l ≠ [])

/-- One outbound REST call recorded by the model, with the flags and the
arguments it was actually given. The initial `create` call carries no body:
controller.py lines 175-180 forward only `**kwargs` (the flags and the
paginated embeds) to `create_interaction_response`, silently dropping the
positional `*args`; only the webhook branch (lines 182-187) forwards
`*args`. -/
inductive Call where
  | create (t : RType) (flags : Flags) (embedsKw : Option (List Embed))
  | webhook (flags : Flags) (args : List Response)
      (embedsKw : Option (List Embed))
  | deferCall (t : DType) (flags : Flags)
deriving DecidableEq, Repr

/-- Python exceptions relevant to the dispatcher paths. `nozomi` is the
`NozomiError` (the spec's `UserFacingError`) with its args tuple;
`pagination` wraps the exceptions `paginate_embed` raises. -/
inductive PyErr where
  | nozomi (args : List Text)
  | typeError
  | valueError
  | keyError
  | pagination (e : PagError)
  | generic (msg : Text)
deriving DecidableEq, Repr

/-- State of a `Controller.Context` (controller.py lines 123-130): the stored
message (initialised to `None` and never assigned anywhere in the
controller), the ephemeral flag, and whether the wrapped interaction is a
component interaction. -/
structure Ctx where
  message : Option Unit
  ephemeral : Option Bool
  isComponent : Bool
deriving DecidableEq, Repr

/-- Translation of `Controller.Context.defer` (controller.py lines 137-154):
a no-op when a message is stored, otherwise record the ephemeral flag and
issue the deferral acknowledgment response. -/
def ctxDefer (st : Ctx) (eph followUp : Bool) : List Call × Ctx :=
  if st.message ≠ none then ([], st)
  else
    ([Call.deferCall
        (if st.isComponent && !followUp then DType.deferredUpdate
         else DType.deferredCreate)
        (if eph then Flags.ephemeral else Flags.undef)],
      { st with ephemeral := some eph })

/-- Lines 167-193 of `Controller.Context.send`: issue the initial create
call when no message is stored (lines 175-180 pass only `**kwargs`, so the
positional `args` - the body - are dropped from that call), a webhook
follow-up (which does forward `*args`) when requested, and otherwise reach
the edit branch, whose argument expression `args ** kwargs` (line 192)
raises a `TypeError` before any call is made. -/
def sendIssue (st : Ctx) (flags : Flags) (args : List Response)
    (embedsKw : Option (List Embed)) (followUp : Bool) :
    List Call × Ctx × Except PyErr Unit :=
  if st.message = none then
    ([Call.create
        (if st.isComponent && !followUp then RType.messageUpdateTuple
         else RType.messageCreate) flags embedsKw], st, .ok ())
  else if followUp then
    ([Call.webhook flags args embedsKw], st, .ok ())
  else
    ([], st, .error PyErr.typeError)

/-- Translation of `Controller.Context.send` (controller.py lines 156-193):
paginate the `embed` keyword argument when present (exceptions raised by
`paginate_embed` propagate out of `send`), fix the ephemeral flag when it is
unset or when this is a follow-up after the stored message, then issue the
call. A later `ephemeral` argument outside those cases is silently
ignored. -/
def ctxSend (st : Ctx) (args : List Response) (embedKw : Option Embed)
    (eph followUp : Bool) : List Call × Ctx × Except PyErr Unit :=
  match embedKw with
  | some e =>
    match paginate_embed e with
    | .error pe => ([], st, .error (PyErr.pagination pe))
    | .ok l =>
      if st.ephemeral = none ∨ (followUp = true ∧ st.message ≠ none) then
        sendIssue { st with ephemeral := some eph }
          (if eph then Flags.ephemeral else Flags.undef) args (some l) followUp
      else sendIssue st Flags.undef args (some l) followUp
  | none =>
    if st.ephemeral = none ∨ (followUp = true ∧ st.message ≠ none) then
      sendIssue { st with ephemeral := some eph }
        (if eph then Flags.ephemeral else Flags.undef) args none followUp
    else sendIssue st Flags.undef args none followUp

/-- An Action body as invoked by `Controller.execute`: given the flattened
options and the context, it performs calls, updates the context and either
returns a response value or raises. -/
def ActionFn : Type :=
  List (Text × Text) → Ctx → List Call × Ctx × Except PyErr Response

/-- Response body used when a `NozomiError` carries no arguments
(controller.py line 252). -/
def failMsg : Text := "Failed".data

/-- Response body substituted for unclassified exceptions (line 255). -/
def internalMsg : Text := "Internal server error".data

/-- The response substitution of controller.py lines 245-255: the action's
return value, or the first argument of a raised `NozomiError` ("Failed"
when it carries none), or "Internal server error" for any other
exception. -/
def substResponse (out : Except PyErr Response) : Response :=
  match out with
  | .ok r => r
  | .error (PyErr.nozomi args) =>
    match args with
    | a :: _ => Response.text a
    | [] => Response.text failMsg
  | .error _ => Response.text internalMsg

/-- Translation of `Controller.execute` (controller.py lines 244-259): run
the action, substituting the response for a caught `NozomiError` or any
other exception (`substResponse`); then, when the response is truthy,
paginate it if it is an embed - exceptions raised here, after the `try`
block, are NOT caught and propagate. The final statement,
`context.send(response)` on line 259, is NOT awaited: it only builds a
coroutine object that is discarded, so the body of `send` never runs from
`execute` - no outbound call is issued and the context is left
untouched. -/
def execute (action : ActionFn) (st : Ctx) (opts : List (Text × Text)) :
    List Call × Ctx × Except PyErr Unit :=
  match action opts st with
  | (acalls, st1, out) =>
    let response : Response := substResponse out
    if response.truthy then
      match response with
      | Response.embed e =>
        match paginate_embed e with
        | .error pe => (acalls, st1, .error (PyErr.pagination pe))
        | .ok _ => (acalls, st1, .ok ())
      | _ => (acalls, st1, .ok ())
    else (acalls, st1, .ok ())

/-- State of an `Executor` (executor.py lines 18-22). -/
structure ExecState where
  ephemeral : Option Bool
  message : Option Unit
deriving DecidableEq, Repr

/-- Translation of the ephemeral check opening `Executor.Context.send`
(executor.py lines 41-47; the remainder of that method is syntactically
incomplete in the source): a non-None `ephemeral` argument either records
the flag (on first use, or on a follow-up after the initial message) or
raises `ValueError("ephemeral has already been set, cannot reset")`. -/
def executorSendEphCheck (es : ExecState) (ephemeral : Option Bool)
    (follow_up : Bool) : Except PyErr ExecState :=
  match ephemeral with
  | none => .ok es
  | some v =>
    if (follow_up = true ∧ es.message ≠ none) ∨ es.ephemeral = none then
      .ok { es with ephemeral := some v }
    else .error PyErr.valueError

/-- Generic association lookup (Python dict subscript, `None` for a missing
key). -/
def lookupAssoc {κ α : Type} [DecidableEq κ] : List (κ × α) → κ → Option α
  | [], _ => none
  | (k, v) :: rest, n => if k = n then some v else lookupAssoc rest n

/-- Wire option types of a command interaction option. -/
inductive OptionType where
  | subCommand
  | subCommandGroup
  | other
deriving DecidableEq, Repr

/-- One option of a command interaction; sub-command and sub-command-group
options carry nested options, leaf options carry a value. -/
inductive CmdOption where
  | mk (ty : OptionType) (name : Text) (options : Option (List CmdOption))
      (value : Text)

def CmdOption.ty : CmdOption → OptionType
  | .mk t _ _ _ => t

def CmdOption.name : CmdOption → Text
  | .mk _ n _ _ => n

def CmdOption.options : CmdOption → Option (List CmdOption)
  | .mk _ _ o _ => o

/-- Modelled from the spec: the registry module (`from . import registry`,
controller.py line 7) is not part of src/, so the shape of a registered
command entry is taken from spec sections 2-3 - command entries form a tree
(command, group, sub-command) whose nodes hold the registered action value
and are subscriptable by child name. `α` is the registered action value. -/
inductive ActionTree (α : Type) where
  | mk (action : α) (children : List (Text × ActionTree α))

def ActionTree.action {α : Type} : ActionTree α → α
  | .mk a _ => a

def ActionTree.children {α : Type} : ActionTree α → List (Text × ActionTree α)
  | .mk _ cs => cs

/-- Subscripting a registry entry by child name; `none` stands for the
`KeyError`/`TypeError` that `dispatch_command` converts to the
`ValueError("unexpected subcommand ...")` (controller.py lines 218-221). -/
def childOf {α : Type} (t : ActionTree α) (n : Text) : Option (ActionTree α) :=
  lookupAssoc t.children n

/-- Whether an option is a sub-command or sub-command-group marker (the loop
condition on controller.py lines 214-217). -/
def isMarker (t : OptionType) : Bool :=
  match t with
  | .subCommand => true
  | .subCommandGroup => true
  | .other => false

/-- The command-tree descent loop of `dispatch_command` (controller.py lines
211-222): while the head option is a marker, subscript the current action
by the option's name - raising the `ValueError` when that fails - and
replace the option list with the option's nested options. -/
def descend {α : Type} (tree : ActionTree α)
    (options : Option (List CmdOption)) :
    Except PyErr (ActionTree α × Option (List CmdOption)) :=
  match options with
  | some (o :: rest) =>
    if isMarker o.ty then
      match childOf tree o.name with
      | none => .error PyErr.valueError
      | some child => descend child o.options
    else .ok (tree, some (o :: rest))
  | none => .ok (tree, none)
  | some [] => .ok (tree, some [])
termination_by sizeOf options
decreasing_by
  cases o with
  | mk t n os v =>
    simp [CmdOption.options]
    omega

/-- A command interaction as read by `dispatch_command`: its id (the
registry key used on controller.py line 210) and its option list. -/
structure CommandInteraction where
  id : Nat
  options : Option (List CmdOption)

/-- Translation of `Controller.dispatch_command` (controller.py lines
208-227) over the spec-modelled registry mapping: look up the action tree
by interaction id (`KeyError` when absent), run the descent loop, then
evaluate `context = self.context()` (line 223) - `Controller.context` and
both subclass overrides take a required `interaction` parameter, so this
zero-argument call raises `TypeError` before the options mapping on lines
224-226 is built and before the resolved action is invoked. Every error
raised on this path propagates to the caller. -/
def dispatch_command {α : Type} (reg : List (Nat × ActionTree α))
    (i : CommandInteraction) : List Call × Except PyErr Unit :=
  match lookupAssoc reg i.id with
  | none => ([], .error PyErr.keyError)
  | some tree =>
    match descend tree i.options with
    | .error e => ([], .error e)
    | .ok _ => ([], .error PyErr.typeError)

/-- Walk a registered command tree along a path of child names. -/
def pathLookup {α : Type} (t : ActionTree α) :
    List Text → Option (ActionTree α)
  | [] => some t
  | n :: ns =>
    match childOf t n with
    | some c => pathLookup c ns
    | none => none

/-- Nested marker options representing a sub-command path ending in the
given innermost option list. -/
def chainOpts (v : Text) :
    List Text → Option (List CmdOption) → Option (List CmdOption)
  | [], rest => rest
  | n :: ns, rest =>
    some [CmdOption.mk OptionType.subCommand n (chainOpts v ns rest) v]

/-- The head of the option list is not a nesting marker, so the descent
loop stops there. -/
def nonMarkerHead : Option (List CmdOption) → Prop
  | some (o :: _) => isMarker o.ty = false
  | _ => True

theorem descend_chainOpts {α : Type} (v : Text) :
    ∀ (names : List Text) (t : ActionTree α) (rest : Option (List CmdOption)),
    nonMarkerHead rest →
    descend t (chainOpts v names rest) =
      (match pathLookup t names with
       | some t2 => .ok (t2, rest)
       | none => .error PyErr.valueError) := by
  intro names
  induction names with
  | nil =>
    intro t rest hnm
    match rest with
    | none =>
      rw [descend.eq_def]
      exact rfl
    | some [] =>
      rw [descend.eq_def]
      exact rfl
    | some (o :: os) =>
      simp only [chainOpts, pathLookup]
      rw [descend.eq_def]
      simp only [nonMarkerHead] at hnm
      simp [hnm]
  | cons n ns ih =>
    intro t rest hnm
    simp only [chainOpts, pathLookup]
    rw [descend.eq_def]
    simp only [CmdOption.ty, CmdOption.name, CmdOption.options, isMarker,
      if_pos]
    cases hc : childOf t n with
    | none => rfl
    | some child => exact ih child rest hnm

/-- A fresh context as built for a non-component interaction. -/
def ctx0 : Ctx := Ctx.mk none none false

/-- An action that performs no calls and raises the given error. -/
def actionRaising (e : PyErr) : ActionFn := fun _ st => ([], st, .error e)

theorem ctxSend_none_message_ok (st : Ctx) (args : List Response)
    (eph followUp : Bool) (hmsg : st.message = none) :
    ∃ t fl st2, ctxSend st args none eph followUp =
      ([Call.create t fl none], st2, .ok ()) := by
  unfold ctxSend
  by_cases hcond : st.ephemeral = none ∨ (followUp = true ∧ st.message ≠ none)
  · rw [if_pos hcond]
    unfold sendIssue
    rw [if_pos (show ({ st with ephemeral := some eph } : Ctx).message = none from hmsg)]
    exact ⟨_, _, _, rfl⟩
  · rw [if_neg hcond]
    unfold sendIssue
    rw [if_pos hmsg]
    exact ⟨_, _, _, rfl⟩

theorem execute_after_error (f : ActionFn) (st : Ctx)
    (opts : List (Text × Text)) (calls : List Call) (st1 : Ctx) (err : PyErr)
    (hrun : f opts st = (calls, st1, .error err)) :
    execute f st opts = (calls, st1, .ok ()) := by
  have hsub : ∃ s, substResponse (.error err) = Response.text s := by
    cases err with
    | nozomi args =>
      cases args with
      | nil => exact ⟨failMsg, rfl⟩
      | cons a as => exact ⟨a, rfl⟩
    | typeError => exact ⟨internalMsg, rfl⟩
    | valueError => exact ⟨internalMsg, rfl⟩
    | keyError => exact ⟨internalMsg, rfl⟩
    | pagination pe => exact ⟨internalMsg, rfl⟩
    | generic g => exact ⟨internalMsg, rfl⟩
  obtain ⟨s, hs⟩ := hsub
  simp only [execute, hrun, hs]
  split <;> rfl

/-- C4 (corrected). The claim that nothing escapes the dispatcher is false,
and the catch that does exist sends nothing: an exception raised by the
Action body inside the `try` block is caught, the substituted text response
is computed, and `execute` returns normally with only the action's own
effects - the final `context.send(response)` (line 259) is never awaited,
so no response call is issued and the context is unchanged. Errors raised
before the `try` block (unknown registry id -> `KeyError`, unknown
subcommand -> `ValueError`, the zero-argument `context()` call ->
`TypeError`) and after it (paginating an embed return value, line 258)
propagate to the caller. -/
theorem execute_catches_action_errors (f : ActionFn) (st : Ctx)
    (opts : List (Text × Text)) (calls : List Call) (st1 : Ctx) (err : PyErr)
    (hrun : f opts st = (calls, st1, .error err)) :
    execute f st opts = (calls, st1, .ok ()) :=
  execute_after_error f st opts calls st1 err hrun

/-- C4 counterexample: an action that merely returns an oversized embed with
no title makes `execute` raise (the pagination `TypeError` reaches the
caller, after the `try` block has already completed). -/
theorem dispatcher_error_escape_counterexample :
    execute (fun _ st => ([], st, .ok (Response.embed exBigNone))) ctx0 [] =
      ([], ctx0, .error (PyErr.pagination PagError.typeError)) := by
  simp [execute, substResponse, Response.truthy, exBigNone_eval]

/-- C4 witness: the amended theorem applied to an action raising an
unclassified exception on a fresh context. -/
theorem execute_catches_action_errors_witness :
    actionRaising (PyErr.generic ['b']) [] ctx0 =
        ([], ctx0, .error (PyErr.generic ['b'])) ∧
      execute (actionRaising (PyErr.generic ['b'])) ctx0 [] =
        ([], ctx0, .ok ()) :=
  ⟨rfl, execute_catches_action_errors (actionRaising (PyErr.generic ['b']))
    ctx0 [] [] ctx0 (PyErr.generic ['b']) rfl⟩

/-- C5 (corrected). The dispatcher computes the claimed response body but
never sends it: `context.send(response)` on line 259 is not awaited, so the
coroutine is discarded and no response call is issued at all - and even an
awaited initial `send` would drop the positional body, since lines 175-180
forward only `**kwargs`. What holds: the substituted body is the
`NozomiError`'s first argument `m` verbatim when its args are nonempty,
"Failed" when it has none, and the fixed "Internal server error" - never
the internal error text - for any other exception; `execute` then returns
normally, issuing no call and leaving the context unchanged, and no
exception escapes. -/
theorem execute_user_facing_amended (st : Ctx) (m g : Text) :
    substResponse (.error (PyErr.nozomi [m])) = Response.text m ∧
    substResponse (.error (PyErr.nozomi [])) = Response.text failMsg ∧
    substResponse (.error (PyErr.generic g)) = Response.text internalMsg ∧
    execute (actionRaising (PyErr.nozomi [m])) st [] = ([], st, .ok ()) ∧
    execute (actionRaising (PyErr.nozomi [])) st [] = ([], st, .ok ()) ∧
    execute (actionRaising (PyErr.generic g)) st [] = ([], st, .ok ()) :=
  ⟨rfl, rfl, rfl,
    execute_after_error (actionRaising (PyErr.nozomi [m])) st [] [] st
      (PyErr.nozomi [m]) rfl,
    execute_after_error (actionRaising (PyErr.nozomi [])) st [] [] st
      (PyErr.nozomi []) rfl,
    execute_after_error (actionRaising (PyErr.generic g)) st [] [] st
      (PyErr.generic g) rfl⟩

/-- C5 counterexample: an action raising a `NozomiError` with the nonempty
message "x" produces NO outbound call whatsoever - the unawaited
`context.send(response)` on line 259 discards its coroutine - so the
claimed single response carrying "x" verbatim is never sent. -/
theorem execute_no_response_counterexample :
    execute (actionRaising (PyErr.nozomi [['x']])) ctx0 [] =
      ([], ctx0, .ok ()) := rfl

/-- C6 (corrected). No `InvalidStateError` exists on this path: the
controller never assigns `self.message`, so a session that has already
issued its initial response still has `message = None`, and a second
`send` with `follow_up=False` succeeds and issues another initial create
call. -/
theorem send_second_time_amended (st : Ctx) (args : List Response)
    (eph followUp : Bool) (hmsg : st.message = none) :
    ∃ t fl st2, ctxSend st args none eph followUp =
      ([Call.create t fl none], st2, .ok ()) :=
  ctxSend_none_message_ok st args eph followUp hmsg

/-- C6 counterexample: a first send on a fresh session, then a second send
with follow_up=False on the resulting state - the second call does not fail
with any error; it issues another initial create call. -/
theorem send_second_time_counterexample :
    ctxSend ctx0 [Response.text ['h']] none false false =
      ([Call.create RType.messageCreate Flags.undef none],
        Ctx.mk none (some false) false, .ok ()) ∧
    ctxSend (Ctx.mk none (some false) false)
        [Response.text ['h']] none false false =
      ([Call.create RType.messageCreate Flags.undef none],
        Ctx.mk none (some false) false, .ok ()) :=
  ⟨rfl, rfl⟩

/-- C6 witness: the amended statement evaluated on the post-send state. -/
theorem send_second_time_amended_witness :
    (Ctx.mk none (some false) false).message = none ∧
      ∃ t fl st2, ctxSend (Ctx.mk none (some false) false)
          [Response.text ['h']] none false false =
        ([Call.create t fl none], st2, .ok ()) :=
  ⟨rfl, send_second_time_amended (Ctx.mk none (some false) false)
    [Response.text ['h']] false false rfl⟩

/-- C7 (corrected). `defer` is a no-op only when `self.message` is set, and
nothing in the controller ever sets it, so each call to `defer` issues one
acknowledgment response: calling `defer` twice issues two acknowledgments
(the state after two calls with the same argument equals the state after
one, but the observable call trace does not). -/
theorem defer_behavior_amended (st : Ctx) (eph followUp : Bool) :
    (st.message ≠ none → ctxDefer st eph followUp = ([], st)) ∧
    (st.message = none → ctxDefer st eph followUp =
      ([Call.deferCall
          (if st.isComponent && !followUp then DType.deferredUpdate
           else DType.deferredCreate)
          (if eph then Flags.ephemeral else Flags.undef)],
        { st with ephemeral := some eph })) := by
  constructor
  · intro h
    unfold ctxDefer
    rw [if_pos h]
  · intro h
    unfold ctxDefer
    rw [if_neg (show ¬st.message ≠ none by simp [h])]

/-- C7 counterexample: two successive `defer` calls on a fresh context each
issue an acknowledgment response - the second call is not a no-op. -/
theorem defer_not_idempotent_counterexample :
    ctxDefer ctx0 false false =
      ([Call.deferCall DType.deferredCreate Flags.undef],
        Ctx.mk none (some false) false) ∧
    ctxDefer (Ctx.mk none (some false) false) false false =
      ([Call.deferCall DType.deferredCreate Flags.undef],
        Ctx.mk none (some false) false) :=
  ⟨rfl, rfl⟩

/-- C7 witness: the guard (no-op when a message is recorded) and the
acknowledgment (when none is) evaluated on concrete states. -/
theorem defer_behavior_amended_witness :
    ((Ctx.mk (some ()) none false).message ≠ none ∧
      ctxDefer (Ctx.mk (some ()) none false) false false =
        ([], Ctx.mk (some ()) none false)) ∧
    ((ctx0 : Ctx).message = none ∧
      ctxDefer ctx0 false false =
        ([Call.deferCall
            (if ctx0.isComponent && !false then DType.deferredUpdate
             else DType.deferredCreate)
            (if false then Flags.ephemeral else Flags.undef)],
          { ctx0 with ephemeral := some false })) :=
  ⟨⟨by decide, (defer_behavior_amended (Ctx.mk (some ()) none false)
      false false).1 (by decide)⟩,
    ⟨rfl, (defer_behavior_amended ctx0 false false).2 rfl⟩⟩

/-- C8 (corrected). The two `send` implementations disagree, so the claim
holds only for the executor. In `Executor.Context.send` any later non-None
`ephemeral` argument fails with the `ValueError` (in particular any attempt
to change the flag), except that a follow-up after the initial message may
record its own privacy. In `Controller.Context.send` no error is ever
raised for this: once the flag is set, a later `ephemeral` argument outside
the follow-up case is silently ignored, the flag keeps its first value and
the call succeeds. -/
theorem ephemeral_fixed_amended (es : ExecState) (v : Bool) (f : Bool)
    (st : Ctx) (args : List Response) (eph followUp : Bool) (b : Bool) :
    (es.ephemeral ≠ none → ¬(f = true ∧ es.message ≠ none) →
      executorSendEphCheck es (some v) f = .error PyErr.valueError) ∧
    ((f = true ∧ es.message ≠ none) →
      executorSendEphCheck es (some v) f = .ok { es with ephemeral := some v }) ∧
    (st.ephemeral = some b → st.message = none →
      (ctxSend st args none eph followUp).2.1.ephemeral = some b ∧
        (ctxSend st args none eph followUp).2.2 = .ok ()) := by
  refine ⟨?_, ?_, ?_⟩
  · intro heph hfu
    simp only [executorSendEphCheck]
    rw [if_neg]
    intro hor
    rcases hor with h | h
    · exact hfu h
    · exact heph h
  · intro hfu
    simp only [executorSendEphCheck]
    rw [if_pos (Or.inl hfu)]
  · intro heph hmsg
    have hcond : ¬(st.ephemeral = none ∨ (followUp = true ∧ st.message ≠ none)) := by
      simp [heph, hmsg]
    unfold ctxSend sendIssue
    rw [if_neg hcond, if_pos hmsg]
    exact ⟨heph, rfl⟩

/-- C8 counterexample: a session whose flag was fixed to `False` accepts a
later `send` with `ephemeral=True` without any error - the flag stays
`False`, the call is issued with no ephemeral flag, and no
`InvalidStateError`-like failure occurs. -/
theorem ephemeral_silent_ignore_counterexample :
    ctxSend (Ctx.mk none (some false) false)
        [Response.text ['h']] none true false =
      ([Call.create RType.messageCreate Flags.undef none],
        Ctx.mk none (some false) false, .ok ()) :=
  rfl

/-- C8 witness: the executor rejection and the controller silent ignore
evaluated on concrete states. -/
theorem ephemeral_fixed_amended_witness :
    executorSendEphCheck (ExecState.mk (some false) none) (some true) false =
        .error PyErr.valueError ∧
      (ctxSend (Ctx.mk none (some false) false)
          [Response.text ['h']] none true false).2.1.ephemeral = some false ∧
      (ctxSend (Ctx.mk none (some false) false)
          [Response.text ['h']] none true false).2.2 = .ok () := by
  have h := ephemeral_fixed_amended (ExecState.mk (some false) none) true false
    (Ctx.mk none (some false) false) [Response.text ['h']] true false false
  exact ⟨h.1 (by decide) (by decide), h.2.2 rfl rfl⟩

/-- The registry of the spec's resolution example, with single-character
names: a top-level command (action id 1) with child "n" (id 2) which in
turn has child "e" (id 3). -/
def exTree : ActionTree Nat :=
  ActionTree.mk 1 [(['n'], ActionTree.mk 2 [(['e'], ActionTree.mk 3 [])])]

/-- The sub-command path of the example. -/
def exPath : List Text := [['n'], ['e']]

/-- A command interaction carrying the nested marker options for the
example path. -/
def exInteraction : CommandInteraction :=
  CommandInteraction.mk 5 (chainOpts [] exPath none)

/-- C9 (corrected). The descent itself behaves as claimed - one level per
marker option, replacing the option list by the nested options, returning
the entry registered at exactly that path, and failing with the
`ValueError` when any child along the path is unregistered - but the
resolved action is never invoked: after the loop `dispatch_command` calls
`self.context()` without the required `interaction` argument, raising a
`TypeError` before the action is executed. -/
theorem dispatch_descend_amended {α : Type} (v : Text) (names : List Text)
    (t : ActionTree α) (rest : Option (List CmdOption))
    (hnm : nonMarkerHead rest) :
    (descend t (chainOpts v names rest) =
      (match pathLookup t names with
       | some t2 => .ok (t2, rest)
       | none => .error PyErr.valueError)) ∧
    (∀ (reg : List (Nat × ActionTree α)) (i : CommandInteraction)
      (tree : ActionTree α) (pr : ActionTree α × Option (List CmdOption)),
      lookupAssoc reg i.id = some tree → descend tree i.options = .ok pr →
      dispatch_command reg i = ([], .error PyErr.typeError)) := by
  constructor
  · exact descend_chainOpts v names t rest hnm
  · intro reg i tree pr hreg hdesc
    simp only [dispatch_command, hreg, hdesc]

/-- C9 counterexample: with the full path registered, the descent resolves
the leaf entry (id 3), yet `dispatch_command` raises the `TypeError` from
the `context()` call and never invokes it. -/
theorem dispatch_never_invokes_counterexample :
    descend exTree exInteraction.options = .ok (ActionTree.mk 3 [], none) ∧
    dispatch_command [(5, exTree)] exInteraction =
      ([], .error PyErr.typeError) := by
  have hd : descend exTree exInteraction.options =
      .ok (ActionTree.mk 3 [], none) := by
    have h0 := descend_chainOpts ([] : Text) exPath exTree none trivial
    rw [show exInteraction.options = chainOpts [] exPath none from rfl, h0]
    rfl
  refine ⟨hd, ?_⟩
  have hl : lookupAssoc [(5, exTree)] exInteraction.id = some exTree := rfl
  simp only [dispatch_command, hl, hd]

/-- C9 witness: the descent law evaluated on the example tree and path, and
the missing-middle-registration variant yielding the `ValueError`. -/
theorem dispatch_descend_amended_witness :
    nonMarkerHead (none : Option (List CmdOption)) ∧
      descend exTree (chainOpts [] exPath none) =
        (match pathLookup exTree exPath with
         | some t2 => .ok (t2, (none : Option (List CmdOption)))
         | none => .error PyErr.valueError) ∧
      descend (ActionTree.mk 1 ([] : List (Text × ActionTree Nat)))
          (chainOpts [] exPath none) =
        (match pathLookup (ActionTree.mk 1 ([] : List (Text × ActionTree Nat))) exPath with
         | some t2 => .ok (t2, (none : Option (List CmdOption)))
         | none => .error PyErr.valueError) :=
  ⟨trivial,
    (dispatch_descend_amended [] exPath exTree none trivial).1,
    (dispatch_descend_amended [] exPath
      (ActionTree.mk 1 ([] : List (Text × ActionTree Nat))) none trivial).1⟩
